import Mathlib

/-!
Verification of the equilibrium-solver core of `truss_analysis.py`.

The Python program is shallowly embedded below.  Numeric values are
modelled as rationals.  External numeric routines that the program calls
(`math.sqrt`, `math.cos`/`math.sin`/`math.atan2` on degrees, and
`np.linalg.lstsq`) are modelled as oracle parameters bundled in
`NumOracle`; theorems that depend on the meaning of a square root state
the defining properties (`L ≥ 0`, `L·L = dx² + dy²`) of the oracle value
as hypotheses.  Python's `compile`/`eval` pair used by `safe_eval` is
modelled by an oracle producing a compiled-code object (its `co_names`
and the outcome of evaluating it).  Python string methods `.strip()` and
`.upper()` (ASCII) and string sorting are modelled by the structural
functions `pyStrip`, `pyUpper` and `sortKeys`.
-/

/-- Characters stripped by Python's `str.strip()` (whitespace). -/
def isWS (c : Char) : Bool := c.isWhitespace

/-- Model of Python `str.strip()`: drop whitespace from both ends. -/
def pyStrip (s : String) : String :=
  ⟨((s.data.dropWhile isWS).reverse.dropWhile isWS).reverse⟩

/-- Model of Python `str.upper()` on the ASCII letters used by node ids. -/
def pyUpper (s : String) : String := ⟨s.data.map Char.toUpper⟩

/-- Code-point lexicographic order on character lists (Python string `<=`). -/
def chLe : List Char → List Char → Bool
  | [], _ => true
  | _ :: _, [] => false
  | a :: as, b :: bs =>
    if a.val < b.val then true
    else if b.val < a.val then false
    else chLe as bs

/-- Python string comparison, used by `sorted(nodes.keys())`. -/
def keyLe (a b : String) : Bool := chLe a.data b.data

/-- Insertion step of the sort modelling Python's `sorted`. -/
def insertSorted (x : String) : List String → List String
  | [] => [x]
  | y :: ys => if keyLe x y then x :: y :: ys else y :: insertSorted x ys

/-- Model of Python `sorted` on a list of keys. -/
def sortKeys : List String → List String
  | [] => []
  | x :: xs => insertSorted x (sortKeys xs)

/-- Index of the first occurrence of `k` (the value `map_idx[k]` built by
`{nid: i for i, nid in enumerate(node_keys)}`; the keys of a dict are
distinct, so first and last occurrence coincide). -/
def idxFrom : List String → String → ℕ
  | [], _ => 0
  | a :: as, k => if a = k then 0 else idxFrom as k + 1

/-! ### `safe_eval` -/

/-- Model of a Python compiled-code object: the names referenced by the
expression (`co_names`) and the outcome of `float(eval(code, …))` —
`.error` an exception message, `.ok` the resulting number. -/
structure PyCode where
  co_names : List String
  evalResult : Except String ℚ

/-- The allow-list inside `safe_eval`. -/
def allowed_names : List String := ["sqrt", "sin", "cos", "tan", "pi", "pow", "abs"]

/-- `safe_eval(expr)`, parameterised by the oracle `co` modelling
`compile(expr, "<string>", "eval")` (`.error` = compile raised).  Mirrors
the source: empty string returns `0.0`; any exception — from `compile`,
from the allow-list check (`NameError`), or from `eval`/`float` — is
caught and `0.0` returned. -/
def safe_eval (co : String → Except String PyCode) (expr : String) : ℚ :=
  if expr = "" then 0
  else
    match co expr with
    | .error _ => 0
    | .ok code =>
      if code.co_names.all (fun n => decide (n ∈ allowed_names)) then
        match code.evalResult with
        | .error _ => 0
        | .ok v => v
      else 0

/-! ### Data model and `get_input_data` -/

/-- One node's attribute record, as stored in the `nodes` dict. -/
structure NodeData where
  x : ℚ
  y : ℚ
  fx : ℚ
  fy : ℚ
  s : String
  s_angle : ℚ
deriving DecidableEq

/-- The record auto-created for a bar endpoint absent from the node rows. -/
def defaultNode : NodeData := ⟨0, 0, 0, 0, "-", 0⟩

/-- One bar record. -/
structure Bar where
  id : String
  u : String
  v : String
deriving DecidableEq

/-- The `nodes` dict: an insertion-ordered association list with the
update-in-place / append-if-new semantics of a Python dict. -/
abbrev NodeMap := List (String × NodeData)

/-- `nodes[k]` as an option (`find?` of the first matching key). -/
def dictGet (m : NodeMap) (k : String) : Option NodeData :=
  (m.find? (fun p => decide (p.1 = k))).map Prod.snd

/-- `nodes[k] = v`: replace in place if the key exists, else append. -/
def dictInsert (m : NodeMap) (k : String) (v : NodeData) : NodeMap :=
  if m.any (fun p => decide (p.1 = k)) then
    m.map (fun p => if p.1 = k then (k, v) else p)
  else m ++ [(k, v)]

/-- One row of the node table.  `none` in a cell field models an absent
`QTableWidgetItem` (reading `.text()` of it raises); `supp` models the
combo-box widget (`none` → `"-"`). -/
structure NodeRow where
  id : Option String
  x : Option String
  y : Option String
  fx : Option String
  fy : Option String
  supp : Option String
  s_angle : Option String
deriving DecidableEq

/-- One row of the bar table. -/
structure BarRow where
  id : Option String
  u : Option String
  v : Option String
deriving DecidableEq

/-- Attribute record built from one node row. -/
def nodeAttrs (co : String → Except String PyCode) (row : NodeRow)
    (xt yt fxt fyt ta : String) : NodeData :=
  ⟨safe_eval co xt, safe_eval co yt, safe_eval co fxt, safe_eval co fyt,
   row.supp.getD "-", safe_eval co ta⟩

/-- Processing of one node row.  A missing id item or a blank id skips the
row; a missing value cell raises (`AttributeError`), which the caller's
bare `except` turns into "no structure". -/
def readNodeRow (co : String → Except String PyCode) (nodes : NodeMap)
    (row : NodeRow) : Except Unit NodeMap :=
  match row.id with
  | none => .ok nodes
  | some t =>
    if pyStrip t = "" then .ok nodes
    else
      match row.x, row.y, row.fx, row.fy, row.s_angle with
      | some xt, some yt, some fxt, some fyt, some ta =>
        .ok (dictInsert nodes (pyStrip t) (nodeAttrs co row xt yt fxt fyt ta))
      | _, _, _, _, _ => .error ()

/-- Processing of one bar row.  The id cell's `.text()` is read first and
raises if the item is absent; a missing or blank endpoint skips the row;
endpoint keys are stripped and upper-cased; endpoints absent from the
node map are auto-created with `defaultNode`. -/
def readBarRow (acc : NodeMap × List Bar) (row : BarRow) :
    Except Unit (NodeMap × List Bar) :=
  match row.id with
  | none => .error ()
  | some bid =>
    match row.u, row.v with
    | some ut, some vt =>
      let u := pyUpper (pyStrip ut)
      let v := pyUpper (pyStrip vt)
      if u = "" ∨ v = "" then .ok acc
      else
        let m1 := if (dictGet acc.1 u).isSome then acc.1
                  else dictInsert acc.1 u defaultNode
        let m2 := if (dictGet m1 v).isSome then m1
                  else dictInsert m1 v defaultNode
        .ok (m2, acc.2 ++ [⟨bid, u, v⟩])
    | _, _ => .ok acc

/-- `get_input_data`: fold the node rows, then the bar rows; any raised
exception or an empty node map yields `(None, None)`, i.e. `none`. -/
def get_input_data (co : String → Except String PyCode)
    (nodeRows : List NodeRow) (barRows : List BarRow) :
    Option (NodeMap × List Bar) :=
  match nodeRows.foldlM (readNodeRow co) [] with
  | .error _ => none
  | .ok nodes0 =>
    match barRows.foldlM readBarRow (nodes0, []) with
    | .error _ => none
    | .ok (nodes, bars) => if nodes = [] then none else some (nodes, bars)

/-! ### Equilibrium assembly (`TrussApp.calculate`) -/

/-- Oracles for the numeric library routines the program calls:
`sqrtQ` models `math.sqrt`, `cosD`/`sinD` model
`math.cos(math.radians ·)` / `math.sin(math.radians ·)`,
`atan2D` models `math.degrees(math.atan2 · ·)`, and `lstsq` models
`np.linalg.lstsq` (given the matrix, the right-hand side and the two
dimensions, it returns the solution vector or raises). -/
structure NumOracle where
  sqrtQ : ℚ → ℚ
  cosD : ℚ → ℚ
  sinD : ℚ → ℚ
  atan2D : ℚ → ℚ → ℚ
  lstsq : (ℕ → ℕ → ℚ) → (ℕ → ℚ) → ℕ → ℕ → Except String (List ℚ)

/-- One entry of `reaction_map`: owning node index, reaction type tag,
display label, direction angle in degrees. -/
structure Reaction where
  idx : ℕ
  rtype : String
  label : String
  angle : ℚ
deriving DecidableEq

/-- `map_idx[nid]` for the canonical sorted key list. -/
def map_idx (keys : List String) (k : String) : ℕ := idxFrom keys k

/-- The reaction components appended while scanning one node `nid`:
a pinned support (`"Gối Cố Định"`) contributes two components at 0° and
90°; a roller (`"Gối Di Động"`) one component at `s_angle + 90`; any
other support string contributes none.  (The `none` branch of the lookup
is unreachable: `nid` is always a key of `nodes`.) -/
def reactionsOfNode (nodes : NodeMap) (keys : List String) (nid : String) :
    List Reaction :=
  match dictGet nodes nid with
  | none => []
  | some n =>
    if n.s = "Gối Cố Định" then
      [⟨map_idx keys nid, "x", "Ax_" ++ nid, 0⟩,
       ⟨map_idx keys nid, "y", "Ay_" ++ nid, 90⟩]
    else if n.s = "Gối Di Động" then
      [⟨map_idx keys nid, "custom", "R_" ++ nid, n.s_angle + 90⟩]
    else []

/-- The loop building `reaction_map` over the sorted node keys. -/
def reaction_map (nodes : NodeMap) (keys : List String) : List Reaction :=
  keys.foldl (fun acc nid => acc ++ reactionsOfNode nodes keys nid) []

/-- The assembled matrix, total over indices (entries outside the
`(2·|nodes|) × (|bars|+|reactions|)` window are never written and stay 0). -/
abbrev Mat := ℕ → ℕ → ℚ

/-- `A[i, j] = v`. -/
def mset (A : Mat) (i j : ℕ) (v : ℚ) : Mat :=
  fun i' j' => if i' = i ∧ j' = j then v else A i' j'

/-- `F[i] = v`. -/
def vset (F : ℕ → ℚ) (i : ℕ) (v : ℚ) : ℕ → ℚ :=
  fun i' => if i' = i then v else F i'

def zeroMat : Mat := fun _ _ => 0

/-- A row of the `debug_info` audit log: object label, node label, angle
in degrees, and the two recorded cosine/sine coefficients. -/
abbrev DbgRow := String × String × ℚ × ℚ × ℚ

/-- State threaded through the assembly loops; `err = some msg` models the
`QMessageBox.critical` + `return` abort (after which nothing further
runs). -/
structure AsmState where
  mat : Mat
  dbg : List DbgRow
  err : Option String

/-- The bar loop of `calculate`: for the `j`-th bar `u→v`, length
`L = sqrt(dx²+dy²)` is checked against `1e-6` (abort naming the bar if
shorter), then column `j` receives `+c, +s` in node `u`'s rows and
`-c, -s` in node `v`'s rows, and two audit rows are appended.  A failing
node lookup models the (unreachable) uncaught `KeyError`. -/
def assembleBarsT (o : NumOracle) (nodes : NodeMap) (keys : List String) :
    List Bar → ℕ → AsmState → AsmState
  | [], _, st => st
  | b :: rest, j, st =>
    match dictGet nodes b.u, dictGet nodes b.v with
    | some p1, some p2 =>
      let dx := p2.x - p1.x
      let dy := p2.y - p1.y
      let L := o.sqrtQ (dx ^ 2 + dy ^ 2)
      if L < 1 / 1000000 then
        { st with err := some ("Thanh " ++ b.id ++ " có chiều dài ~ 0!") }
      else
        let c := dx / L
        let s := dy / L
        let angle := o.atan2D dy dx
        let iu := map_idx keys b.u
        let iv := map_idx keys b.v
        let A2 := mset (mset (mset (mset st.mat (2 * iu) j c)
                    (2 * iu + 1) j s) (2 * iv) j (-c)) (2 * iv + 1) j (-s)
        let ang_v := if angle + 180 > 180 then angle + 180 - 360 else angle + 180
        assembleBarsT o nodes keys rest (j + 1)
          ⟨A2,
           st.dbg ++ [("Thanh " ++ b.id, b.u, angle, c, s),
                      ("Thanh " ++ b.id, b.v, ang_v, -c, -s)],
           st.err⟩
    | _, _ => { st with err := some "KeyError" }

/-- The reaction loop of `calculate`: the `k`-th reaction component at
node index `idx` with direction `θ` writes `cos θ` and `sin θ` into rows
`2·idx`, `2·idx+1` of column `|bars| + k`, and appends an audit row. -/
def assembleReactions (o : NumOracle) (keys : List String) (n_bars : ℕ) :
    List Reaction → ℕ → Mat → List DbgRow → Mat × List DbgRow
  | [], _, A, dbg => (A, dbg)
  | r :: rest, k, A, dbg =>
    let col := n_bars + k
    let cos_r := o.cosD r.angle
    let sin_r := o.sinD r.angle
    let A2 := mset (mset A (2 * r.idx) col cos_r) (2 * r.idx + 1) col sin_r
    assembleReactions o keys n_bars rest (k + 1) A2
      (dbg ++ [("Gối " ++ r.label, keys.getD r.idx "", r.angle, cos_r, sin_r)])

/-- The load vector: `F[2i] = -fx`, `F[2i+1] = -fy` for each node. -/
def fvec (nodes : NodeMap) (keys : List String) : ℕ → ℚ :=
  nodes.foldl
    (fun F p =>
      vset (vset F (2 * map_idx keys p.1) (-p.2.fx))
        (2 * map_idx keys p.1 + 1) (-p.2.fy))
    (fun _ => 0)

/-- The bar-assembly pass of `calculate`, started on the zero matrix. -/
def calcAssembly (o : NumOracle) (nodes : NodeMap) (bars : List Bar) : AsmState :=
  assembleBarsT o nodes (sortKeys (nodes.map Prod.fst)) bars 0 ⟨zeroMat, [], none⟩

/-- The fully assembled equilibrium matrix (bar columns then reaction
columns), as handed to the solver. -/
def fullMatrix (o : NumOracle) (nodes : NodeMap) (bars : List Bar) : Mat :=
  (assembleReactions o (sortKeys (nodes.map Prod.fst)) bars.length
    (reaction_map nodes (sortKeys (nodes.map Prod.fst)))
    0 (calcAssembly o nodes bars).mat (calcAssembly o nodes bars).dbg).1

/-- Classification of a solved bar force in `display_results`. -/
def classify (v : ℚ) : String :=
  if v > 1 / 10000 then "KÉO (+)"
  else if v < -(1 / 10000) then "NÉN (-)"
  else "Không Lực"

/-- One row of the results table: a bar row shows the label, `|force|`
and the classification string; a reaction row shows the label, `|value|`
and the derived Cartesian components `Rx = v·cos θ`, `Ry = v·sin θ`. -/
inductive ResRow where
  | bar (label : String) (value : ℚ) (status : String)
  | reaction (label : String) (value : ℚ) (rx ry : ℚ)
deriving DecidableEq

/-- `display_results`: bar rows in input order followed by reaction rows. -/
def display_results (o : NumOracle) (S : List ℚ) (bars : List Bar)
    (R : List ℚ) (rmap : List Reaction) : List ResRow :=
  (S.zipWith (fun v b => ResRow.bar ("Thanh " ++ b.id) |v| (classify v)) bars) ++
  (R.zipWith
    (fun v r => ResRow.reaction ("P.Lực " ++ r.label ++ " (Tổng)") |v|
      (v * o.cosD r.angle) (v * o.sinD r.angle)) rmap)

/-- Observable outcome of one press of the compute button:
`skipped` = the bare `return` with no dialog; `geomError` = the
degenerate-bar abort dialog; `solveError` = the caught solver exception
dialog; `success` carries the bar-force slice, the reaction slice and the
audit log. -/
inductive CalcOutcome where
  | skipped
  | geomError (msg : String)
  | solveError (msg : String)
  | success (S : List ℚ) (R : List ℚ) (dbg : List DbgRow)
deriving DecidableEq

/-- `TrussApp.calculate`, end to end. -/
def calculate (o : NumOracle) (co : String → Except String PyCode)
    (nodeRows : List NodeRow) (barRows : List BarRow) : CalcOutcome :=
  match get_input_data co nodeRows barRows with
  | none => .skipped
  | some (nodes, bars) =>
    if bars = [] then .skipped
    else
      let keys := sortKeys (nodes.map Prod.fst)
      let rmap := reaction_map nodes keys
      let st := calcAssembly o nodes bars
      match st.err with
      | some msg => .geomError msg
      | none =>
        let AD := assembleReactions o keys bars.length rmap 0 st.mat st.dbg
        match o.lstsq AD.1 (fvec nodes keys) (2 * nodes.length)
            (bars.length + rmap.length) with
        | .error e => .solveError e
        | .ok X => .success (X.take bars.length) (X.drop bars.length) AD.2

/-- The squared distance between a bar's endpoints, when both resolve. -/
def barLenSq (nodes : NodeMap) (b : Bar) : Option ℚ :=
  match dictGet nodes b.u, dictGet nodes b.v with
  | some p1, some p2 => some ((p2.x - p1.x) ^ 2 + (p2.y - p1.y) ^ 2)
  | _, _ => none

/-! ### Concrete instances used by witnesses and counterexamples -/

/-- A compile oracle on which every expression fails to compile
(so `safe_eval` returns 0 everywhere). -/
def co0 : String → Except String PyCode := fun _ => .error "SyntaxError"

/-- A node-table row with id text `t`, all numeric cells `"0"`, no
support selected. -/
def stdRow (t : String) : NodeRow :=
  ⟨some t, some "0", some "0", some "0", some "0", none, some "0"⟩

/-- Oracle whose square root is constantly 5 (correct on input 25). -/
def oW : NumOracle :=
  { sqrtQ := fun _ => 5, cosD := fun _ => 0, sinD := fun _ => 0,
    atan2D := fun _ _ => 0, lstsq := fun _ _ _ _ => .ok [] }

/-- Oracle whose square root is constantly 0 (correct on input 0). -/
def oZ : NumOracle := { oW with sqrtQ := fun _ => 0 }

/-- Two nodes at distance 5. -/
def nodesW : NodeMap := [("A", ⟨0, 0, 0, 0, "-", 0⟩), ("B", ⟨3, 4, 0, 0, "-", 0⟩)]

/-- One bar joining them. -/
def barsW : List Bar := [⟨"1", "A", "B"⟩]

/-- A pinned node (with a nonzero roller-angle field) and a roller node. -/
def nodesP : NodeMap :=
  [("A", ⟨0, 0, 0, 0, "Gối Cố Định", 7⟩), ("B", ⟨3, 0, 0, 0, "Gối Di Động", 30⟩)]

/-! ### Helper lemmas: sorting, indexing, dict semantics -/

theorem insertSorted_perm (x : String) :
    ∀ l : List String, (insertSorted x l).Perm (x :: l)
  | [] => .refl _
  | y :: ys => by
    unfold insertSorted
    by_cases h : keyLe x y = true
    · simp [h]
    · simp only [h, if_false]
      exact ((insertSorted_perm x ys).cons y).trans (List.Perm.swap x y ys)

theorem sortKeys_perm : ∀ l : List String, (sortKeys l).Perm l
  | [] => .refl _
  | x :: xs => (insertSorted_perm x (sortKeys xs)).trans ((sortKeys_perm xs).cons x)

theorem mem_sortKeys {k : String} {l : List String} : k ∈ sortKeys l ↔ k ∈ l :=
  (sortKeys_perm l).mem_iff

theorem sortKeys_nodup {l : List String} (h : l.Nodup) : (sortKeys l).Nodup :=
  (sortKeys_perm l).nodup_iff.mpr h

theorem idxFrom_getElem? :
    ∀ (l : List String) (k : String), k ∈ l → l[idxFrom l k]? = some k
  | a :: as, k, h => by
    unfold idxFrom
    by_cases he : a = k
    · simp [he]
    · have hk : k ∈ as := by
        rcases List.mem_cons.mp h with h1 | h2
        · exact absurd h1.symm he
        · exact h2
      simp only [he, if_false, List.getElem?_cons_succ]
      exact idxFrom_getElem? as k hk

theorem idxFrom_inj {l : List String} {a b : String} (ha : a ∈ l) (hb : b ∈ l)
    (h : idxFrom l a = idxFrom l b) : a = b := by
  have h1 := idxFrom_getElem? l a ha
  have h2 := idxFrom_getElem? l b hb
  rw [h, h2] at h1
  exact (Option.some.injEq _ _ ▸ h1).symm ▸ rfl

theorem dictGet_nil (k : String) : dictGet [] k = none := rfl

theorem dictGet_cons (p : String × NodeData) (m : NodeMap) (k : String) :
    dictGet (p :: m) k = if p.1 = k then some p.2 else dictGet m k := by
  by_cases h : p.1 = k
  · simp [dictGet, List.find?, h]
  · simp [dictGet, List.find?, h]


theorem dictGet_isSome_iff {m : NodeMap} {k : String} :
    (dictGet m k).isSome = true ↔ k ∈ m.map Prod.fst := by
  induction m with
  | nil => simp [dictGet_nil]
  | cons p rest ih =>
    rw [dictGet_cons]
    by_cases h : p.1 = k
    · simp [h]
    · simp only [h, if_false, List.map_cons, List.mem_cons]
      rw [ih]
      constructor
      · exact Or.inr
      · rintro (hh | hh)
        · exact absurd hh.symm h
        · exact hh

theorem any_key_iff {m : NodeMap} {k : String} :
    (m.any fun p => decide (p.1 = k)) = true ↔ k ∈ m.map Prod.fst := by
  induction m with
  | nil => simp
  | cons p rest ih =>
    simp only [List.any_cons, List.map_cons, List.mem_cons, Bool.or_eq_true,
      decide_eq_true_eq, ih]
    constructor
    · rintro (hh | hh)
      · exact Or.inl hh.symm
      · exact Or.inr hh
    · rintro (hh | hh)
      · exact Or.inl hh.symm
      · exact Or.inr hh

theorem replaceGet_self (k : String) (v : NodeData) :
    ∀ m : NodeMap, k ∈ m.map Prod.fst →
      dictGet (m.map fun p => if p.1 = k then (k, v) else p) k = some v := by
  intro m
  induction m with
  | nil => simp
  | cons p rest ih =>
    intro hmem
    by_cases h : p.1 = k
    · simp only [List.map_cons, h, if_true]
      rw [dictGet_cons]
      simp
    · simp only [List.map_cons, h, if_false]
      rw [dictGet_cons]
      simp only [h, if_false]
      apply ih
      simp only [List.map_cons, List.mem_cons] at hmem
      rcases hmem with hh | hh
      · exact absurd hh.symm h
      · exact hh

theorem appendGet_self (k : String) (v : NodeData) :
    ∀ m : NodeMap, k ∉ m.map Prod.fst → dictGet (m ++ [(k, v)]) k = some v := by
  intro m
  induction m with
  | nil =>
    intro _
    rw [List.nil_append, dictGet_cons]
    simp
  | cons p rest ih =>
    intro habs
    rw [List.cons_append, dictGet_cons]
    by_cases h : p.1 = k
    · exact absurd (List.mem_cons_self _ _) (h ▸ habs)
    · simp only [h, if_false]
      exact ih (fun hh => habs (List.mem_cons_of_mem _ hh))

theorem replaceGet_ne (k k' : String) (v : NodeData) (hne : k' ≠ k) :
    ∀ m : NodeMap,
      dictGet (m.map fun p => if p.1 = k then (k, v) else p) k' = dictGet m k' := by
  intro m
  induction m with
  | nil => rfl
  | cons p rest ih =>
    by_cases h : p.1 = k
    · simp only [List.map_cons, h, if_true]
      rw [dictGet_cons, dictGet_cons]
      have h1 : ¬ (k = k') := fun hh => hne hh.symm
      have h2 : ¬ (p.1 = k') := by rw [h]; exact h1
      simp only [h1, h2, if_false]
      exact ih
    · simp only [List.map_cons, h, if_false]
      rw [dictGet_cons, dictGet_cons]
      by_cases h2 : p.1 = k'
      · simp [h2]
      · simp only [h2, if_false]
        exact ih

theorem appendGet_ne (k k' : String) (v : NodeData) (hne : k' ≠ k) :
    ∀ m : NodeMap, dictGet (m ++ [(k, v)]) k' = dictGet m k' := by
  intro m
  induction m with
  | nil =>
    rw [List.nil_append, dictGet_cons, dictGet_nil]
    have h1 : ¬ (k = k') := fun hh => hne hh.symm
    simp [h1, dictGet_nil]
  | cons p rest ih =>
    rw [List.cons_append, dictGet_cons, dictGet_cons]
    by_cases h2 : p.1 = k'
    · simp [h2]
    · simp only [h2, if_false]
      exact ih

theorem dictGet_insert_self (m : NodeMap) (k : String) (v : NodeData) :
    dictGet (dictInsert m k v) k = some v := by
  unfold dictInsert
  by_cases hany : (m.any fun p => decide (p.1 = k)) = true
  · rw [if_pos hany]
    exact replaceGet_self k v m (any_key_iff.mp hany)
  · rw [if_neg hany]
    exact appendGet_self k v m (fun hh => hany (any_key_iff.mpr hh))

theorem dictGet_insert_ne (m : NodeMap) (k k' : String) (v : NodeData)
    (hne : k' ≠ k) : dictGet (dictInsert m k v) k' = dictGet m k' := by
  unfold dictInsert
  by_cases hany : (m.any fun p => decide (p.1 = k)) = true
  · rw [if_pos hany]
    exact replaceGet_ne k k' v hne m
  · rw [if_neg hany]
    exact appendGet_ne k k' v hne m

theorem dictInsert_keys_nodup {m : NodeMap} (k : String) (v : NodeData)
    (h : (m.map Prod.fst).Nodup) : ((dictInsert m k v).map Prod.fst).Nodup := by
  unfold dictInsert
  by_cases hany : (m.any fun p => decide (p.1 = k)) = true
  · rw [if_pos hany]
    have heq : (m.map (fun p => if p.1 = k then (k, v) else p)).map Prod.fst
        = m.map Prod.fst := by
      rw [List.map_map]
      apply List.map_congr_left
      intro p _
      by_cases hp : p.1 = k <;> simp [hp]
    rw [heq]
    exact h
  · rw [if_neg hany, List.map_append]
    rw [List.nodup_append]
    refine ⟨h, List.nodup_singleton k, ?_⟩
    intro a ha hb
    simp only [List.map_cons, List.map_nil, List.mem_singleton] at hb
    subst hb
    exact hany (any_key_iff.mpr ha)

theorem dictInsert_preserves_isSome (m : NodeMap) (k k' : String) (v : NodeData)
    (h : (dictGet m k').isSome = true) :
    (dictGet (dictInsert m k v) k').isSome = true := by
  by_cases he : k' = k
  · subst he
    rw [dictGet_insert_self]
    rfl
  · rw [dictGet_insert_ne m k k' v he]
    exact h

/-! ### Helper lemmas: matrix assembly -/

theorem mset_col_ne (A : Mat) (i j : ℕ) (v : ℚ) (r c : ℕ) (h : c ≠ j) :
    mset A i j v r c = A r c := by
  simp [mset, h]

theorem assembleBarsT_col_lt (o : NumOracle) (nodes : NodeMap) (keys : List String) :
    ∀ (bars : List Bar) (j : ℕ) (st : AsmState) (r col : ℕ), col < j →
      (assembleBarsT o nodes keys bars j st).mat r col = st.mat r col := by
  intro bars
  induction bars with
  | nil => intro j st r col _; rfl
  | cons b rest ih =>
    intro j st r col h
    have hcol : col ≠ j := Nat.ne_of_lt h
    cases hdu : dictGet nodes b.u with
    | none => simp [assembleBarsT, hdu]
    | some p1 =>
      cases hdv : dictGet nodes b.v with
      | none => simp [assembleBarsT, hdu, hdv]
      | some p2 =>
        simp only [assembleBarsT, hdu, hdv]
        by_cases hL : o.sqrtQ ((p2.x - p1.x) ^ 2 + (p2.y - p1.y) ^ 2) < 1 / 1000000
        · rw [if_pos hL]
        · rw [if_neg hL]
          rw [ih (j + 1) _ r col (Nat.lt_succ_of_lt h)]
          simp only [mset_col_ne _ _ _ _ _ _ hcol]

theorem assembleBarsT_entry (o : NumOracle) (nodes : NodeMap) (keys : List String) :
    ∀ (bars : List Bar) (i : ℕ) (b : Bar) (j : ℕ) (st : AsmState) (p1 p2 : NodeData),
      st.err = none →
      (assembleBarsT o nodes keys bars j st).err = none →
      bars[i]? = some b →
      dictGet nodes b.u = some p1 → dictGet nodes b.v = some p2 →
      ∀ r : ℕ,
        (assembleBarsT o nodes keys bars j st).mat r (j + i) =
          (if r = 2 * map_idx keys b.v + 1 then
            -((p2.y - p1.y) / o.sqrtQ ((p2.x - p1.x) ^ 2 + (p2.y - p1.y) ^ 2))
           else if r = 2 * map_idx keys b.v then
            -((p2.x - p1.x) / o.sqrtQ ((p2.x - p1.x) ^ 2 + (p2.y - p1.y) ^ 2))
           else if r = 2 * map_idx keys b.u + 1 then
            (p2.y - p1.y) / o.sqrtQ ((p2.x - p1.x) ^ 2 + (p2.y - p1.y) ^ 2)
           else if r = 2 * map_idx keys b.u then
            (p2.x - p1.x) / o.sqrtQ ((p2.x - p1.x) ^ 2 + (p2.y - p1.y) ^ 2)
           else st.mat r (j + i)) := by
  intro bars
  induction bars with
  | nil => intro i b j st p1 p2 _ _ hb; simp at hb
  | cons b0 rest ih =>
    intro i b j st p1 p2 hst herr hb hp1 hp2 r
    cases i with
    | zero =>
      have e : b0 = b := by simpa using hb
      rw [e] at herr ⊢
      simp only [assembleBarsT, hp1, hp2] at herr ⊢
      by_cases hL : o.sqrtQ ((p2.x - p1.x) ^ 2 + (p2.y - p1.y) ^ 2) < 1 / 1000000
      · rw [if_pos hL] at herr
        simp at herr
      · rw [if_neg hL] at herr ⊢
        rw [assembleBarsT_col_lt o nodes keys rest (j + 1) _ r (j + 0) (by omega)]
        simp only [Nat.add_zero, mset]
        by_cases h1 : r = 2 * map_idx keys b.v + 1
        · simp [h1]
        · by_cases h2 : r = 2 * map_idx keys b.v
          · simp [h1, h2]
          · by_cases h3 : r = 2 * map_idx keys b.u + 1
            · simp [h1, h2, h3]
            · by_cases h4 : r = 2 * map_idx keys b.u
              · simp [h1, h2, h3, h4]
              · simp [h1, h2, h3, h4]
    | succ i' =>
      cases hdu : dictGet nodes b0.u with
      | none =>
        exfalso
        simp only [assembleBarsT, hdu] at herr
        simp at herr
      | some q1 =>
        cases hdv : dictGet nodes b0.v with
        | none =>
          exfalso
          simp only [assembleBarsT, hdu, hdv] at herr
          simp at herr
        | some q2 =>
          simp only [assembleBarsT, hdu, hdv] at herr ⊢
          by_cases hL : o.sqrtQ ((q2.x - q1.x) ^ 2 + (q2.y - q1.y) ^ 2) < 1 / 1000000
          · rw [if_pos hL] at herr
            simp at herr
          · rw [if_neg hL] at herr ⊢
            have hidx : j + (i' + 1) = (j + 1) + i' := by omega
            rw [hidx]
            rw [ih i' b (j + 1) _ p1 p2 (by exact hst) herr (by simpa using hb)
              hp1 hp2 r]
            have hcol : (j + 1) + i' ≠ j := by omega
            simp only [mset_col_ne _ _ _ _ _ _ hcol]

theorem assembleBarsT_err_at (o : NumOracle) (nodes : NodeMap) (keys : List String) :
    ∀ (bars : List Bar) (i : ℕ) (b : Bar) (q : ℚ) (j : ℕ) (st : AsmState),
      st.err = none →
      (∀ k bk, k ≤ i → bars[k]? = some bk →
        (dictGet nodes bk.u).isSome = true ∧ (dictGet nodes bk.v).isSome = true) →
      (∀ k bk qk, k < i → bars[k]? = some bk → barLenSq nodes bk = some qk →
        ¬ o.sqrtQ qk < 1 / 1000000) →
      bars[i]? = some b → barLenSq nodes b = some q →
      o.sqrtQ q < 1 / 1000000 →
      (assembleBarsT o nodes keys bars j st).err =
        some ("Thanh " ++ b.id ++ " có chiều dài ~ 0!") := by
  intro bars
  induction bars with
  | nil => intro i b q j st _ _ _ hb; simp at hb
  | cons b0 rest ih =>
    intro i b q j st hst hres hbef hb hq hlt
    cases i with
    | zero =>
      have e : b0 = b := by simpa using hb
      subst e
      obtain ⟨hu, hv⟩ := hres 0 b0 (le_refl 0) (by simp)
      obtain ⟨p1, hp1⟩ := Option.isSome_iff_exists.mp hu
      obtain ⟨p2, hp2⟩ := Option.isSome_iff_exists.mp hv
      have hqv : q = (p2.x - p1.x) ^ 2 + (p2.y - p1.y) ^ 2 := by
        unfold barLenSq at hq
        rw [hp1, hp2] at hq
        simpa using hq.symm
      have hL : o.sqrtQ ((p2.x - p1.x) ^ 2 + (p2.y - p1.y) ^ 2) < 1 / 1000000 := by
        rw [← hqv]; exact hlt
      simp only [assembleBarsT, hp1, hp2]
      rw [if_pos hL]
    | succ i' =>
      obtain ⟨hu, hv⟩ := hres 0 b0 (Nat.zero_le _) (by simp)
      obtain ⟨p1, hp1⟩ := Option.isSome_iff_exists.mp hu
      obtain ⟨p2, hp2⟩ := Option.isSome_iff_exists.mp hv
      have hq0 : barLenSq nodes b0 = some ((p2.x - p1.x) ^ 2 + (p2.y - p1.y) ^ 2) := by
        unfold barLenSq
        rw [hp1, hp2]
      have hL : ¬ o.sqrtQ ((p2.x - p1.x) ^ 2 + (p2.y - p1.y) ^ 2) < 1 / 1000000 :=
        hbef 0 b0 _ (Nat.succ_pos i') (by simp) hq0
      simp only [assembleBarsT, hp1, hp2]
      rw [if_neg hL]
      exact ih i' b q (j + 1) _ (by exact hst)
        (fun k bk hk hbk => hres (k + 1) bk (Nat.succ_le_succ hk) (by simpa using hbk))
        (fun k bk qk hk hbk hqk =>
          hbef (k + 1) bk qk (Nat.succ_lt_succ hk) (by simpa using hbk) hqk)
        (by simpa using hb) hq hlt

theorem assembleReactions_col_lt (o : NumOracle) (keys : List String) (n_bars : ℕ) :
    ∀ (rmap : List Reaction) (k : ℕ) (A : Mat) (dbg : List DbgRow) (r col : ℕ),
      col < n_bars + k →
      (assembleReactions o keys n_bars rmap k A dbg).1 r col = A r col := by
  intro rmap
  induction rmap with
  | nil => intro k A dbg r col _; rfl
  | cons rc rest ih =>
    intro k A dbg r col h
    simp only [assembleReactions]
    rw [ih (k + 1) _ _ r col (by omega)]
    have hcol : col ≠ n_bars + k := by omega
    simp only [mset_col_ne _ _ _ _ _ _ hcol]

theorem foldl_append_eq (f : String → List Reaction) :
    ∀ (l : List String) (init : List Reaction),
      l.foldl (fun acc nid => acc ++ f nid) init = init ++ l.flatMap f := by
  intro l
  induction l with
  | nil => intro init; simp
  | cons x xs ih =>
    intro init
    simp only [List.foldl_cons, List.flatMap_cons, ih, List.append_assoc]

theorem reaction_map_eq_flatMap (nodes : NodeMap) (keys : List String) :
    reaction_map nodes keys = keys.flatMap (reactionsOfNode nodes keys) := by
  unfold reaction_map
  rw [foldl_append_eq]
  simp

/-! ### Helper lemmas: input processing -/

theorem autocreate_get (m : NodeMap) (u k : String) (d : NodeData)
    (hk : (dictGet m k).isSome = true) :
    dictGet (if (dictGet m u).isSome = true then m else dictInsert m u d) k
      = dictGet m k := by
  by_cases hu : (dictGet m u).isSome = true
  · rw [if_pos hu]
  · rw [if_neg hu]
    by_cases he : k = u
    · subst he
      exact absurd hk hu
    · exact dictGet_insert_ne m u k d he

theorem autocreate_isSome_self (m : NodeMap) (u : String) (d : NodeData) :
    (dictGet (if (dictGet m u).isSome = true then m else dictInsert m u d) u).isSome
      = true := by
  by_cases hu : (dictGet m u).isSome = true
  · rw [if_pos hu]
    exact hu
  · rw [if_neg hu, dictGet_insert_self]
    rfl

theorem autocreate_preserves_isSome (m : NodeMap) (u k : String) (d : NodeData)
    (hk : (dictGet m k).isSome = true) :
    (dictGet (if (dictGet m u).isSome = true then m else dictInsert m u d) k).isSome
      = true := by
  rw [autocreate_get m u k d hk]
  exact hk

theorem autocreate_nodup (m : NodeMap) (u : String) (d : NodeData)
    (h : (m.map Prod.fst).Nodup) :
    (((if (dictGet m u).isSome = true then m else dictInsert m u d)).map
      Prod.fst).Nodup := by
  by_cases hu : (dictGet m u).isSome = true
  · rw [if_pos hu]
    exact h
  · rw [if_neg hu]
    exact dictInsert_keys_nodup u d h

theorem readBarRow_preserves_get {acc acc' : NodeMap × List Bar} {row : BarRow}
    (h : readBarRow acc row = .ok acc') (k : String)
    (hk : (dictGet acc.1 k).isSome = true) :
    dictGet acc'.1 k = dictGet acc.1 k := by
  cases hid : row.id with
  | none =>
    simp only [readBarRow, hid] at h
    exact Except.noConfusion h
  | some bid =>
    cases hu : row.u with
    | none =>
      simp only [readBarRow, hid, hu] at h
      injection h with h
      rw [← h]
    | some ut =>
      cases hv : row.v with
      | none =>
        simp only [readBarRow, hid, hu, hv] at h
        injection h with h
        rw [← h]
      | some vt =>
        simp only [readBarRow, hid, hu, hv] at h
        by_cases hblank : pyUpper (pyStrip ut) = "" ∨ pyUpper (pyStrip vt) = ""
        · rw [if_pos hblank] at h
          injection h with h
          rw [← h]
        · rw [if_neg hblank] at h
          injection h with h
          rw [← h]
          have h1 := autocreate_get acc.1 (pyUpper (pyStrip ut)) k defaultNode hk
          have h1s : (dictGet (if (dictGet acc.1 (pyUpper (pyStrip ut))).isSome = true
              then acc.1 else dictInsert acc.1 (pyUpper (pyStrip ut)) defaultNode)
              k).isSome = true := by
            rw [h1]; exact hk
          have h2 := autocreate_get _ (pyUpper (pyStrip vt)) k defaultNode h1s
          rw [h2, h1]

theorem barRowsFold_preserves_get :
    ∀ (rows : List BarRow) (acc res : NodeMap × List Bar),
      rows.foldlM readBarRow acc = .ok res →
      ∀ k, (dictGet acc.1 k).isSome = true → dictGet res.1 k = dictGet acc.1 k := by
  intro rows
  induction rows with
  | nil =>
    intro acc res h k _
    have h' : (Except.ok acc : Except Unit (NodeMap × List Bar)) = .ok res := h
    injection h' with h'
    rw [h']
  | cons row rest ih =>
    intro acc res h k hk
    rw [List.foldlM_cons] at h
    cases hstep : readBarRow acc row with
    | error e =>
      rw [hstep] at h
      have h' : (Except.error e : Except Unit (NodeMap × List Bar)) = .ok res := h
      exact Except.noConfusion h'
    | ok acc1 =>
      rw [hstep] at h
      have h' : rest.foldlM readBarRow acc1 = .ok res := h
      have hpres := readBarRow_preserves_get hstep k hk
      have hk1 : (dictGet acc1.1 k).isSome = true := by rw [hpres]; exact hk
      rw [ih acc1 res h' k hk1, hpres]

theorem readBarRow_nodup {acc acc' : NodeMap × List Bar} {row : BarRow}
    (h : readBarRow acc row = .ok acc')
    (hn : (acc.1.map Prod.fst).Nodup) : (acc'.1.map Prod.fst).Nodup := by
  cases hid : row.id with
  | none =>
    simp only [readBarRow, hid] at h
    exact Except.noConfusion h
  | some bid =>
    cases hu : row.u with
    | none =>
      simp only [readBarRow, hid, hu] at h
      injection h with h
      rw [← h]
      exact hn
    | some ut =>
      cases hv : row.v with
      | none =>
        simp only [readBarRow, hid, hu, hv] at h
        injection h with h
        rw [← h]
        exact hn
      | some vt =>
        simp only [readBarRow, hid, hu, hv] at h
        by_cases hblank : pyUpper (pyStrip ut) = "" ∨ pyUpper (pyStrip vt) = ""
        · rw [if_pos hblank] at h
          injection h with h
          rw [← h]
          exact hn
        · rw [if_neg hblank] at h
          injection h with h
          rw [← h]
          exact autocreate_nodup _ _ _ (autocreate_nodup _ _ _ hn)

theorem barRowsFold_nodup :
    ∀ (rows : List BarRow) (acc res : NodeMap × List Bar),
      rows.foldlM readBarRow acc = .ok res →
      (acc.1.map Prod.fst).Nodup → (res.1.map Prod.fst).Nodup := by
  intro rows
  induction rows with
  | nil =>
    intro acc res h hn
    have h' : (Except.ok acc : Except Unit (NodeMap × List Bar)) = .ok res := h
    injection h' with h'
    rw [← h']
    exact hn
  | cons row rest ih =>
    intro acc res h hn
    rw [List.foldlM_cons] at h
    cases hstep : readBarRow acc row with
    | error e =>
      rw [hstep] at h
      exact Except.noConfusion
        (show (Except.error e : Except Unit (NodeMap × List Bar)) = .ok res from h)
    | ok acc1 =>
      rw [hstep] at h
      exact ih acc1 res (show rest.foldlM readBarRow acc1 = .ok res from h)
        (readBarRow_nodup hstep hn)

theorem barRowsFold_resolve :
    ∀ (rows : List BarRow) (acc res : NodeMap × List Bar),
      rows.foldlM readBarRow acc = .ok res →
      (∀ b ∈ acc.2, (dictGet acc.1 b.u).isSome = true ∧
        (dictGet acc.1 b.v).isSome = true) →
      ∀ b ∈ res.2, (dictGet res.1 b.u).isSome = true ∧
        (dictGet res.1 b.v).isSome = true := by
  intro rows
  induction rows with
  | nil =>
    intro acc res h hinv
    have h' : (Except.ok acc : Except Unit (NodeMap × List Bar)) = .ok res := h
    injection h' with h'
    rw [← h']
    exact hinv
  | cons row rest ih =>
    intro acc res h hinv
    rw [List.foldlM_cons] at h
    cases hstep : readBarRow acc row with
    | error e =>
      rw [hstep] at h
      exact Except.noConfusion
        (show (Except.error e : Except Unit (NodeMap × List Bar)) = .ok res from h)
    | ok acc1 =>
      rw [hstep] at h
      refine ih acc1 res (show rest.foldlM readBarRow acc1 = .ok res from h) ?_
      cases hid : row.id with
      | none =>
        simp only [readBarRow, hid] at hstep
        exact Except.noConfusion hstep
      | some bid =>
        cases hu : row.u with
        | none =>
          simp only [readBarRow, hid, hu] at hstep
          injection hstep with hstep
          rw [← hstep]
          exact hinv
        | some ut =>
          cases hv : row.v with
          | none =>
            simp only [readBarRow, hid, hu, hv] at hstep
            injection hstep with hstep
            rw [← hstep]
            exact hinv
          | some vt =>
            simp only [readBarRow, hid, hu, hv] at hstep
            by_cases hblank : pyUpper (pyStrip ut) = "" ∨ pyUpper (pyStrip vt) = ""
            · rw [if_pos hblank] at hstep
              injection hstep with hstep
              rw [← hstep]
              exact hinv
            · rw [if_neg hblank] at hstep
              injection hstep with hstep
              rw [← hstep]
              intro b hb
              simp only [List.mem_append, List.mem_singleton] at hb
              rcases hb with hb | hb
              · obtain ⟨hbu, hbv⟩ := hinv b hb
                constructor
                · exact autocreate_preserves_isSome _ _ _ _
                    (autocreate_preserves_isSome _ _ _ _ hbu)
                · exact autocreate_preserves_isSome _ _ _ _
                    (autocreate_preserves_isSome _ _ _ _ hbv)
              · subst hb
                constructor
                · have h1 := autocreate_isSome_self acc.1 (pyUpper (pyStrip ut))
                    defaultNode
                  exact autocreate_preserves_isSome _ _ _ _ h1
                · exact autocreate_isSome_self _ _ _

theorem readNodeRow_nodup {co : String → Except String PyCode} {m m' : NodeMap}
    {row : NodeRow} (h : readNodeRow co m row = .ok m')
    (hn : (m.map Prod.fst).Nodup) : (m'.map Prod.fst).Nodup := by
  cases hid : row.id with
  | none =>
    simp only [readNodeRow, hid] at h
    injection h with h
    rw [← h]
    exact hn
  | some t =>
    simp only [readNodeRow, hid] at h
    by_cases hblank : pyStrip t = ""
    · rw [if_pos hblank] at h
      injection h with h
      rw [← h]
      exact hn
    · rw [if_neg hblank] at h
      cases hx : row.x with
      | none =>
        simp only [hx] at h
        exact Except.noConfusion h
      | some xt =>
        cases hy : row.y with
        | none =>
          simp only [hx, hy] at h
          exact Except.noConfusion h
        | some yt =>
          cases hfx : row.fx with
          | none =>
            simp only [hx, hy, hfx] at h
            exact Except.noConfusion h
          | some fxt =>
            cases hfy : row.fy with
            | none =>
              simp only [hx, hy, hfx, hfy] at h
              exact Except.noConfusion h
            | some fyt =>
              cases hta : row.s_angle with
              | none =>
                simp only [hx, hy, hfx, hfy, hta] at h
                exact Except.noConfusion h
              | some ta =>
                simp only [hx, hy, hfx, hfy, hta] at h
                injection h with h
                rw [← h]
                exact dictInsert_keys_nodup _ _ hn

theorem nodeRowsFold_nodup :
    ∀ (rows : List NodeRow) (co : String → Except String PyCode) (m res : NodeMap),
      rows.foldlM (readNodeRow co) m = .ok res →
      (m.map Prod.fst).Nodup → (res.map Prod.fst).Nodup := by
  intro rows
  induction rows with
  | nil =>
    intro co m res h hn
    have h' : (Except.ok m : Except Unit NodeMap) = .ok res := h
    injection h' with h'
    rw [← h']
    exact hn
  | cons row rest ih =>
    intro co m res h hn
    rw [List.foldlM_cons] at h
    cases hstep : readNodeRow co m row with
    | error e =>
      rw [hstep] at h
      exact Except.noConfusion
        (show (Except.error e : Except Unit NodeMap) = .ok res from h)
    | ok m1 =>
      rw [hstep] at h
      exact ih co m1 res (show rest.foldlM (readNodeRow co) m1 = .ok res from h)
        (readNodeRow_nodup hstep hn)

theorem readNodeRow_complete (co : String → Except String PyCode) (m : NodeMap)
    (r : NodeRow) (t xt yt fxt fyt ta : String)
    (hid : r.id = some t) (hkey : pyStrip t ≠ "") (hx : r.x = some xt)
    (hy : r.y = some yt) (hfx : r.fx = some fxt) (hfy : r.fy = some fyt)
    (hta : r.s_angle = some ta) :
    readNodeRow co m r =
      .ok (dictInsert m (pyStrip t) (nodeAttrs co r xt yt fxt fyt ta)) := by
  simp only [readNodeRow, hid, hx, hy, hfx, hfy, hta]
  rw [if_neg hkey]

theorem nodeRowsFold_preserves_get :
    ∀ (rows : List NodeRow) (co : String → Except String PyCode)
      (m res : NodeMap) (k : String),
      rows.foldlM (readNodeRow co) m = .ok res →
      (∀ r ∈ rows, ∀ t, r.id = some t → pyStrip t ≠ k) →
      dictGet res k = dictGet m k := by
  intro rows
  induction rows with
  | nil =>
    intro co m res k h _
    have h' : (Except.ok m : Except Unit NodeMap) = .ok res := h
    injection h' with h'
    rw [h']
  | cons row rest ih =>
    intro co m res k h hrows
    rw [List.foldlM_cons] at h
    cases hstep : readNodeRow co m row with
    | error e =>
      rw [hstep] at h
      exact Except.noConfusion
        (show (Except.error e : Except Unit NodeMap) = .ok res from h)
    | ok m1 =>
      rw [hstep] at h
      have h' : rest.foldlM (readNodeRow co) m1 = .ok res := h
      have hrest := ih co m1 res k h'
        (fun r hr t ht => hrows r (List.mem_cons_of_mem _ hr) t ht)
      rw [hrest]
      -- one step: the row either skips or inserts at a key other than `k`
      cases hid : row.id with
      | none =>
        simp only [readNodeRow, hid] at hstep
        injection hstep with hstep
        rw [← hstep]
      | some t =>
        have hkne : pyStrip t ≠ k := hrows row (List.mem_cons_self _ _) t hid
        simp only [readNodeRow, hid] at hstep
        by_cases hblank : pyStrip t = ""
        · rw [if_pos hblank] at hstep
          injection hstep with hstep
          rw [← hstep]
        · rw [if_neg hblank] at hstep
          cases hx : row.x with
          | none =>
            simp only [hx] at hstep
            exact Except.noConfusion hstep
          | some xt =>
            cases hy : row.y with
            | none =>
              simp only [hx, hy] at hstep
              exact Except.noConfusion hstep
            | some yt =>
              cases hfx : row.fx with
              | none =>
                simp only [hx, hy, hfx] at hstep
                exact Except.noConfusion hstep
              | some fxt =>
                cases hfy : row.fy with
                | none =>
                  simp only [hx, hy, hfx, hfy] at hstep
                  exact Except.noConfusion hstep
                | some fyt =>
                  cases hta : row.s_angle with
                  | none =>
                    simp only [hx, hy, hfx, hfy, hta] at hstep
                    exact Except.noConfusion hstep
                  | some ta =>
                    simp only [hx, hy, hfx, hfy, hta] at hstep
                    injection hstep with hstep
                    rw [← hstep]
                    exact dictGet_insert_ne m (pyStrip t) k _
                      (fun he => hkne he.symm)

theorem get_input_data_eq_some {co : String → Except String PyCode}
    {nr : List NodeRow} {br : List BarRow} {nodes : NodeMap} {bars : List Bar}
    (h : get_input_data co nr br = some (nodes, bars)) :
    ∃ nodes0 : NodeMap, nr.foldlM (readNodeRow co) [] = .ok nodes0 ∧
      br.foldlM readBarRow (nodes0, []) = .ok (nodes, bars) ∧ nodes ≠ [] := by
  unfold get_input_data at h
  split at h
  · exact Option.noConfusion h
  · rename_i nodes0 heq
    split at h
    · exact Option.noConfusion h
    · rename_i ns bs heq2
      split at h
      · exact Option.noConfusion h
      · rename_i hns
        injection h with h
        injection h with he1 he2
        refine ⟨nodes0, heq, ?_, ?_⟩
        · rw [← he1, ← he2]
          exact heq2
        · rw [← he1]
          exact hns

theorem get_input_data_nodup {co : String → Except String PyCode}
    {nr : List NodeRow} {br : List BarRow} {nodes : NodeMap} {bars : List Bar}
    (h : get_input_data co nr br = some (nodes, bars)) :
    (nodes.map Prod.fst).Nodup := by
  obtain ⟨nodes0, h1, h2, _⟩ := get_input_data_eq_some h
  have hn0 : (nodes0.map Prod.fst).Nodup :=
    nodeRowsFold_nodup nr co [] nodes0 h1 (by simp)
  exact barRowsFold_nodup br (nodes0, []) (nodes, bars) h2 hn0

theorem get_input_data_resolve {co : String → Except String PyCode}
    {nr : List NodeRow} {br : List BarRow} {nodes : NodeMap} {bars : List Bar}
    (h : get_input_data co nr br = some (nodes, bars)) :
    ∀ b ∈ bars, (dictGet nodes b.u).isSome = true ∧
      (dictGet nodes b.v).isSome = true := by
  obtain ⟨nodes0, _, h2, _⟩ := get_input_data_eq_some h
  exact barRowsFold_resolve br (nodes0, []) (nodes, bars) h2
    (fun b hb => absurd hb (List.not_mem_nil b))

theorem sqrt_lt_eps_iff (s q : ℚ) (h1 : s * s = q) (h2 : 0 ≤ s) :
    (s < 1 / 1000000 ↔ q < 1 / 1000000000000) := by
  constructor
  · intro h
    nlinarith
  · intro h
    by_contra hge
    push_neg at hge
    nlinarith

/-! ### Claim theorems -/

/-- C10: the numeric-field expression evaluator `safe_eval` is total: for
every input it returns a rational and never raises — 0 for the empty
string, 0 when compilation raises, 0 when the compiled code references a
name outside the allow-list `sqrt, sin, cos, tan, pi, pow, abs`
(the `NameError` is caught by the function's own handler), 0 when
evaluation or the float coercion raises, and the evaluated value when
evaluation succeeds with all names allowed.  Totality holds for every
behaviour of the compile/eval oracle. -/
theorem c10_safe_eval_total (co : String → Except String PyCode)
    (expr : String) (code : PyCode) :
    safe_eval co "" = 0 ∧
    (expr ≠ "" → ∀ e, co expr = .error e → safe_eval co expr = 0) ∧
    (expr ≠ "" → co expr = .ok code →
      (¬ code.co_names.all (fun n => decide (n ∈ allowed_names)) = true →
        safe_eval co expr = 0) ∧
      (∀ e, code.evalResult = .error e → safe_eval co expr = 0) ∧
      (∀ v, code.evalResult = .ok v →
        code.co_names.all (fun n => decide (n ∈ allowed_names)) = true →
        safe_eval co expr = v)) := by
  refine ⟨by simp [safe_eval], ?_, ?_⟩
  · intro hne e he
    simp [safe_eval, hne, he]
  · intro hne hok
    refine ⟨?_, ?_, ?_⟩
    · intro hnames
      simp [safe_eval, hne, hok, hnames]
    · intro e he
      by_cases hn : code.co_names.all (fun n => decide (n ∈ allowed_names)) = true
      · simp [safe_eval, hne, hok, hn, he]
      · simp [safe_eval, hne, hok, hn]
    · intro v hv hn
      simp [safe_eval, hne, hok, hn, hv]

/-- Witness for C10 at concrete oracles: empty string, compile failure,
disallowed name, and a successful evaluation. -/
theorem c10_witness :
    safe_eval co0 "" = 0 ∧ safe_eval co0 "1+1" = 0 ∧
    safe_eval (fun _ => .ok ⟨["os"], .ok 3⟩) "os" = 0 ∧
    safe_eval (fun _ => .ok ⟨["sqrt"], .ok 3⟩) "sqrt(9)" = 3 := by
  refine ⟨(c10_safe_eval_total co0 "1+1" ⟨[], .ok 0⟩).1, ?_, ?_, ?_⟩
  · exact (c10_safe_eval_total co0 "1+1" ⟨[], .ok 0⟩).2.1 (by decide) "SyntaxError" rfl
  · exact ((c10_safe_eval_total (fun _ => .ok ⟨["os"], .ok 3⟩) "os"
      ⟨["os"], .ok 3⟩).2.2 (by decide) rfl).1 (by decide)
  · exact ((c10_safe_eval_total (fun _ => .ok ⟨["sqrt"], .ok 3⟩) "sqrt(9)"
      ⟨["sqrt"], .ok 3⟩).2.2 (by decide) rfl).2.2 3 rfl (by decide)

/-- C7: a solved bar force `v` is reported in the results table with
status Tension (`"KÉO (+)"`) exactly when `v > 1e-4`, Compression
(`"NÉN (-)"`) exactly when `v < -1e-4`, and Zero-force (`"Không Lực"`)
otherwise. -/
theorem c7_classification (o : NumOracle) (S : List ℚ) (bars : List Bar)
    (R : List ℚ) (rmap : List Reaction) (i : ℕ) (v : ℚ) (b : Bar)
    (hv : S[i]? = some v) (hb : bars[i]? = some b) :
    (display_results o S bars R rmap)[i]? =
      some (.bar ("Thanh " ++ b.id) |v| (classify v)) ∧
    (classify v = "KÉO (+)" ↔ v > 1 / 10000) ∧
    (classify v = "NÉN (-)" ↔ v < -(1 / 10000)) ∧
    (classify v = "Không Lực" ↔ ¬ v > 1 / 10000 ∧ ¬ v < -(1 / 10000)) := by
  have hneg : -(1 / 10000 : ℚ) < 1 / 10000 := by norm_num
  refine ⟨?_, ?_, ?_, ?_⟩
  · have hiS : i < S.length := by
      by_contra hge
      rw [List.getElem?_eq_none (by omega)] at hv
      exact Option.noConfusion hv
    have hiB : i < bars.length := by
      by_contra hge
      rw [List.getElem?_eq_none (by omega)] at hb
      exact Option.noConfusion hb
    unfold display_results
    rw [List.getElem?_append_left (by rw [List.length_zipWith]; omega)]
    rw [List.getElem?_zipWith]
    rw [hv, hb]
  · constructor
    · intro h
      by_contra hn
      unfold classify at h
      rw [if_neg hn] at h
      by_cases h2 : v < -(1 / 10000)
      · rw [if_pos h2] at h
        exact absurd h (by decide)
      · rw [if_neg h2] at h
        exact absurd h (by decide)
    · intro h
      unfold classify
      rw [if_pos h]
  · constructor
    · intro h
      unfold classify at h
      by_cases h1 : v > 1 / 10000
      · rw [if_pos h1] at h
        exact absurd h (by decide)
      · rw [if_neg h1] at h
        by_cases h2 : v < -(1 / 10000)
        · exact h2
        · rw [if_neg h2] at h
          exact absurd h (by decide)
    · intro h
      unfold classify
      have h1 : ¬ v > 1 / 10000 := by
        intro hgt
        linarith
      rw [if_neg h1, if_pos h]
  · constructor
    · intro h
      unfold classify at h
      by_cases h1 : v > 1 / 10000
      · rw [if_pos h1] at h
        exact absurd h (by decide)
      · by_cases h2 : v < -(1 / 10000)
        · rw [if_neg h1, if_pos h2] at h
          exact absurd h (by decide)
        · exact ⟨h1, h2⟩
    · intro ⟨h1, h2⟩
      unfold classify
      rw [if_neg h1, if_neg h2]

/-- Witness for C7 at a concrete tensile force. -/
theorem c7_witness :
    ([(1 : ℚ)][0]? = some 1) ∧ (barsW[0]? = some ⟨"1", "A", "B"⟩) ∧
    (display_results oW [1] barsW [] [])[0]? =
      some (.bar ("Thanh " ++ ("1" : String)) |(1 : ℚ)| (classify 1)) ∧
    (classify (1 : ℚ) = "KÉO (+)" ↔ (1 : ℚ) > 1 / 10000) := by
  have h := c7_classification oW [1] barsW [] [] 0 1 ⟨"1", "A", "B"⟩ rfl rfl
  exact ⟨rfl, rfl, h.1, h.2.1⟩

/-- C2: while scanning the sorted node keys, a node whose support is
Pinned (`"Gối Cố Định"`) contributes exactly two reaction components, at
direction angles 0° and 90°, whatever its roller-angle field holds; a
node whose support is Roller (`"Gối Di Động"`) with surface angle `θ`
contributes exactly one component at angle `θ + 90`; a node with any
other support string contributes none; and `reaction_map` is exactly the
concatenation of these per-node contributions in sorted key order. -/
theorem c2_reactions (nodes : NodeMap) (keys : List String) (nid : String)
    (n : NodeData) (hn : dictGet nodes nid = some n) :
    reaction_map nodes keys = keys.flatMap (reactionsOfNode nodes keys) ∧
    (n.s = "Gối Cố Định" →
      reactionsOfNode nodes keys nid =
        [⟨map_idx keys nid, "x", "Ax_" ++ nid, 0⟩,
         ⟨map_idx keys nid, "y", "Ay_" ++ nid, 90⟩]) ∧
    (n.s = "Gối Di Động" →
      reactionsOfNode nodes keys nid =
        [⟨map_idx keys nid, "custom", "R_" ++ nid, n.s_angle + 90⟩]) ∧
    (n.s ≠ "Gối Cố Định" → n.s ≠ "Gối Di Động" →
      reactionsOfNode nodes keys nid = []) := by
  refine ⟨reaction_map_eq_flatMap nodes keys, ?_, ?_, ?_⟩
  · intro hs
    simp only [reactionsOfNode, hn]
    rw [if_pos hs]
  · intro hs
    simp only [reactionsOfNode, hn]
    rw [if_neg (show ¬ n.s = "Gối Cố Định" by rw [hs]; decide), if_pos hs]
  · intro h1 h2
    simp only [reactionsOfNode, hn]
    rw [if_neg h1, if_neg h2]

/-- Witness for C2: a pinned node with a nonzero roller-angle field and a
roller node at 30°. -/
theorem c2_witness :
    dictGet nodesP "A" = some ⟨0, 0, 0, 0, "Gối Cố Định", 7⟩ ∧
    reactionsOfNode nodesP ["A", "B"] "A" =
      [⟨map_idx ["A", "B"] "A", "x", "Ax_" ++ "A", 0⟩,
       ⟨map_idx ["A", "B"] "A", "y", "Ay_" ++ "A", 90⟩] ∧
    reactionsOfNode nodesP ["A", "B"] "B" =
      [⟨map_idx ["A", "B"] "B", "custom", "R_" ++ "B",
        (⟨3, 0, 0, 0, "Gối Di Động", 30⟩ : NodeData).s_angle + 90⟩] := by
  refine ⟨rfl, ?_, ?_⟩
  · exact (c2_reactions nodesP ["A", "B"] "A" ⟨0, 0, 0, 0, "Gối Cố Định", 7⟩
      rfl).2.1 rfl
  · exact (c2_reactions nodesP ["A", "B"] "B" ⟨3, 0, 0, 0, "Gối Di Động", 30⟩
      rfl).2.2.1 rfl

/-- C5 (amended): the structure build indeed never yields an empty node
map (it returns "no structure" instead); but an explicit compute request
on an empty structure does NOT report a user-visible error — `calculate`
silently returns (`skipped`), exactly like a preview path. -/
theorem c5_empty_structure (o : NumOracle) (co : String → Except String PyCode)
    (nr : List NodeRow) (br : List BarRow) :
    (∀ nodes bars, get_input_data co nr br = some (nodes, bars) → nodes ≠ []) ∧
    (get_input_data co nr br = none → calculate o co nr br = .skipped) := by
  constructor
  · intro nodes bars h
    obtain ⟨_, _, _, hne⟩ := get_input_data_eq_some h
    exact hne
  · intro h
    unfold calculate
    rw [h]

/-- Counterexample for C5 as stated: on empty input the compute request
returns the silent `skipped` outcome — the bare `return` — with no error
dialog of any kind. -/
theorem c5_counterexample : calculate oW co0 [] [] = CalcOutcome.skipped := by
  decide

/-- Witness for C5 (amended) at the empty input. -/
theorem c5_witness :
    get_input_data co0 ([] : List NodeRow) ([] : List BarRow) = none ∧
    calculate oW co0 [] [] = CalcOutcome.skipped :=
  ⟨rfl, (c5_empty_structure oW co0 [] []).2 rfl⟩

/-- C8: an explicit compute request whose bar list is empty silently
returns (`skipped`) without assembling, solving or reporting anything,
even when the node map is non-empty. -/
theorem c8_empty_bars (o : NumOracle) (co : String → Except String PyCode)
    (nr : List NodeRow) (br : List BarRow) (nodes : NodeMap)
    (h : get_input_data co nr br = some (nodes, [])) :
    calculate o co nr br = .skipped := by
  unfold calculate
  rw [h]
  rfl

/-- Witness for C8: one node row, no bar rows. -/
theorem c8_witness :
    get_input_data co0 [stdRow "A"] [] =
      some ([("A", nodeAttrs co0 (stdRow "A") "0" "0" "0" "0" "0")], []) ∧
    calculate oW co0 [stdRow "A"] [] = CalcOutcome.skipped :=
  ⟨rfl, c8_empty_bars oW co0 [stdRow "A"] [] _ rfl⟩

/-- Counterexample for C4 as stated: node-row keys are NOT upper-cased
(only stripped), so node rows `" a "` and `"A"` build two distinct nodes
`"a"` and `"A"` instead of resolving to the same node. -/
theorem c4_counterexample :
    get_input_data co0 [stdRow " a ", stdRow "A"] [] =
      some ([("a", nodeAttrs co0 (stdRow " a ") "0" "0" "0" "0" "0"),
             ("A", nodeAttrs co0 (stdRow "A") "0" "0" "0" "0" "0")], []) ∧
    ("a" : String) ≠ "A" :=
  ⟨rfl, by decide⟩

/-- C4 (amended): bar-endpoint keys are stripped AND upper-cased, so the
endpoint texts `" a "`, `"A"`, `"a"` all resolve to the same node `"A"`;
node-row keys are only whitespace-stripped, so a node row `" a "` builds
the key `"a"`, which differs from the node built by a row `"A"`. -/
theorem c4_canonicalization (co : String → Except String PyCode) (t : String)
    (ht : t ∈ ([" a ", "A", "a"] : List String)) :
    (∀ bid : String,
      get_input_data co [stdRow "A"] [⟨some bid, some t, some t⟩] =
        some ([("A", nodeAttrs co (stdRow "A") "0" "0" "0" "0" "0")],
          [⟨bid, "A", "A"⟩])) ∧
    get_input_data co [stdRow t] [] =
      some ([(pyStrip t, nodeAttrs co (stdRow t) "0" "0" "0" "0" "0")], []) ∧
    pyStrip " a " = "a" ∧ pyStrip "A" = "A" ∧ pyUpper (pyStrip t) = "A" ∧
    ("a" : String) ≠ "A" := by
  simp only [List.mem_cons, List.not_mem_nil, or_false] at ht
  rcases ht with rfl | rfl | rfl
  · exact ⟨fun bid => rfl, rfl, rfl, rfl, rfl, by decide⟩
  · exact ⟨fun bid => rfl, rfl, rfl, rfl, rfl, by decide⟩
  · exact ⟨fun bid => rfl, rfl, rfl, rfl, rfl, by decide⟩

/-- Witness for C4 (amended) at the endpoint text `" a "`. -/
theorem c4_witness :
    (" a " : String) ∈ ([" a ", "A", "a"] : List String) ∧
    get_input_data co0 [stdRow " a "] [] =
      some ([("a", nodeAttrs co0 (stdRow " a ") "0" "0" "0" "0" "0")], []) ∧
    get_input_data co0 [stdRow "A"] [⟨some "7", some " a ", some " a "⟩] =
      some ([("A", nodeAttrs co0 (stdRow "A") "0" "0" "0" "0" "0")],
        [⟨"7", "A", "A"⟩]) := by
  have h := c4_canonicalization co0 " a " (by decide)
  exact ⟨by decide, h.2.1, h.1 "7"⟩

/-- Counterexample for C6 as stated: a bar row whose id cell is absent is
not dropped — the whole input read aborts with "no structure", so the
following well-formed bar row is not processed either. -/
theorem c6_counterexample :
    get_input_data co0 [stdRow "A", stdRow "B"]
      [⟨none, some "A", some "B"⟩, ⟨some "2", some "A", some "B"⟩] = none := by
  decide

/-- C6 (amended): a bar row with a missing or blank start or end key is
dropped without error and the remaining rows are still processed; a bar
row whose id cell is absent aborts the whole input read (the raised
exception makes `get_input_data` return "no structure"); a bar row whose
id text is present — even empty — with valid endpoints is kept. -/
theorem c6_bar_row_handling (acc : NodeMap × List Bar) (row : BarRow)
    (rest : List BarRow) (bid : String) :
    (row.id = some bid → (row.u = none ∨ row.v = none) →
      (row :: rest).foldlM readBarRow acc = rest.foldlM readBarRow acc) ∧
    (∀ ut vt, row.id = some bid → row.u = some ut → row.v = some vt →
      (pyUpper (pyStrip ut) = "" ∨ pyUpper (pyStrip vt) = "") →
      (row :: rest).foldlM readBarRow acc = rest.foldlM readBarRow acc) ∧
    (row.id = none → (row :: rest).foldlM readBarRow acc = .error ()) ∧
    (∀ ut vt, row.id = some bid → row.u = some ut → row.v = some vt →
      pyUpper (pyStrip ut) ≠ "" → pyUpper (pyStrip vt) ≠ "" →
      ∃ m' : NodeMap,
        (row :: rest).foldlM readBarRow acc =
          rest.foldlM readBarRow
            (m', acc.2 ++ [⟨bid, pyUpper (pyStrip ut), pyUpper (pyStrip vt)⟩])) := by
  refine ⟨?_, ?_, ?_, ?_⟩
  · intro hid hor
    rw [List.foldlM_cons]
    rcases hor with hu | hv
    · have hstep : readBarRow acc row = .ok acc := by
        cases hv : row.v <;> simp [readBarRow, hid, hu, hv]
      rw [hstep]
      rfl
    · have hstep : readBarRow acc row = .ok acc := by
        cases hu : row.u <;> simp [readBarRow, hid, hu, hv]
      rw [hstep]
      rfl
  · intro ut vt hid hu hv hblank
    rw [List.foldlM_cons]
    have hstep : readBarRow acc row = .ok acc := by
      simp only [readBarRow, hid, hu, hv]
      rw [if_pos hblank]
    rw [hstep]
    rfl
  · intro hid
    rw [List.foldlM_cons]
    have hstep : readBarRow acc row = .error () := by
      simp only [readBarRow, hid]
    rw [hstep]
    rfl
  · intro ut vt hid hu hv hub hvb
    rw [List.foldlM_cons]
    have hstep : readBarRow acc row = .ok
        (if (dictGet (if (dictGet acc.1 (pyUpper (pyStrip ut))).isSome = true
              then acc.1
              else dictInsert acc.1 (pyUpper (pyStrip ut)) defaultNode)
            (pyUpper (pyStrip vt))).isSome = true
         then (if (dictGet acc.1 (pyUpper (pyStrip ut))).isSome = true
              then acc.1
              else dictInsert acc.1 (pyUpper (pyStrip ut)) defaultNode)
         else dictInsert (if (dictGet acc.1 (pyUpper (pyStrip ut))).isSome = true
              then acc.1
              else dictInsert acc.1 (pyUpper (pyStrip ut)) defaultNode)
            (pyUpper (pyStrip vt)) defaultNode,
         acc.2 ++ [⟨bid, pyUpper (pyStrip ut), pyUpper (pyStrip vt)⟩]) := by
      simp only [readBarRow, hid, hu, hv]
      rw [if_neg (by push_neg; exact ⟨hub, hvb⟩)]
    rw [hstep]
    exact ⟨_, rfl⟩

/-- Witness for C6 (amended): a row with a missing start key is skipped;
a row with a missing id aborts. -/
theorem c6_witness :
    (([⟨some "1", none, some "B"⟩, ⟨some "2", some "A", some "B"⟩] :
        List BarRow).foldlM readBarRow (([], []) : NodeMap × List Bar) =
      ([⟨some "2", some "A", some "B"⟩] :
        List BarRow).foldlM readBarRow (([], []) : NodeMap × List Bar)) ∧
    (([⟨none, some "A", some "B"⟩] : List BarRow).foldlM readBarRow
      (([], []) : NodeMap × List Bar) = .error ()) :=
  ⟨(c6_bar_row_handling ([], []) ⟨some "1", none, some "B"⟩
      [⟨some "2", some "A", some "B"⟩] "1").1 rfl (Or.inl rfl),
   (c6_bar_row_handling ([], []) ⟨none, some "A", some "B"⟩ [] "x").2.2.1 rfl⟩

theorem mem_of_getElem?' {α : Type} {l : List α} {i : ℕ} {a : α}
    (h : l[i]? = some a) : a ∈ l := by
  obtain ⟨hlt, he⟩ := List.getElem?_eq_some.mp h
  exact he ▸ List.getElem_mem hlt

theorem lt_length_of_getElem?' {α : Type} {l : List α} {i : ℕ} {a : α}
    (h : l[i]? = some a) : i < l.length :=
  (List.getElem?_eq_some.mp h).1

/-- C9: when two node rows carry the same stripped key, the build raises
no error — a complete row always processes into a dict assignment — the
built node map holds the attributes of the last such row (any earlier
row's record having been overwritten in place), and the node map's keys
are unique by construction. -/
theorem c9_duplicate_keys (co : String → Except String PyCode)
    (nr : List NodeRow) (br : List BarRow) (nodes : NodeMap) (bars : List Bar)
    (pre post : List NodeRow) (r : NodeRow) (t xt yt fxt fyt ta : String)
    (hsplit : nr = pre ++ r :: post)
    (hid : r.id = some t) (hkey : pyStrip t ≠ "")
    (hx : r.x = some xt) (hy : r.y = some yt) (hfx : r.fx = some fxt)
    (hfy : r.fy = some fyt) (hta : r.s_angle = some ta)
    (hpost : ∀ r' ∈ post, ∀ t', r'.id = some t' → pyStrip t' ≠ pyStrip t)
    (hsome : get_input_data co nr br = some (nodes, bars)) :
    dictGet nodes (pyStrip t) = some (nodeAttrs co r xt yt fxt fyt ta) ∧
    (nodes.map Prod.fst).Nodup ∧
    (∀ m : NodeMap, readNodeRow co m r =
      .ok (dictInsert m (pyStrip t) (nodeAttrs co r xt yt fxt fyt ta))) := by
  obtain ⟨nodes0, h1, h2, hne⟩ := get_input_data_eq_some hsome
  rw [hsplit, List.foldlM_append] at h1
  cases hpre : pre.foldlM (readNodeRow co) [] with
  | error e =>
    rw [hpre] at h1
    exact Except.noConfusion
      (show (Except.error e : Except Unit NodeMap) = .ok nodes0 from h1)
  | ok m1 =>
    rw [hpre] at h1
    have h1' : (r :: post).foldlM (readNodeRow co) m1 = .ok nodes0 := h1
    rw [List.foldlM_cons,
      readNodeRow_complete co m1 r t xt yt fxt fyt ta hid hkey hx hy hfx hfy hta]
      at h1'
    have h1'' : post.foldlM (readNodeRow co)
        (dictInsert m1 (pyStrip t) (nodeAttrs co r xt yt fxt fyt ta)) =
        .ok nodes0 := h1'
    have hkeep := nodeRowsFold_preserves_get post co _ nodes0 (pyStrip t) h1'' hpost
    rw [dictGet_insert_self] at hkeep
    have hfinal : dictGet nodes (pyStrip t) =
        some (nodeAttrs co r xt yt fxt fyt ta) := by
      have hpres := barRowsFold_preserves_get br (nodes0, []) (nodes, bars) h2
        (pyStrip t) (by rw [hkeep]; rfl)
      rw [hpres]
      exact hkeep
    exact ⟨hfinal, get_input_data_nodup hsome,
      fun m => readNodeRow_complete co m r t xt yt fxt fyt ta hid hkey hx hy
        hfx hfy hta⟩

/-- Witness for C9: two node rows with the same key `"A"`. -/
theorem c9_witness :
    get_input_data co0 [stdRow "A", stdRow "A"] [] =
      some ([("A", nodeAttrs co0 (stdRow "A") "0" "0" "0" "0" "0")], []) ∧
    dictGet [("A", nodeAttrs co0 (stdRow "A") "0" "0" "0" "0" "0")]
      (pyStrip "A") = some (nodeAttrs co0 (stdRow "A") "0" "0" "0" "0" "0") ∧
    (([("A", nodeAttrs co0 (stdRow "A") "0" "0" "0" "0" "0")] : NodeMap).map
      Prod.fst).Nodup := by
  have h := c9_duplicate_keys co0 [stdRow "A", stdRow "A"] []
    [("A", nodeAttrs co0 (stdRow "A") "0" "0" "0" "0" "0")] []
    [stdRow "A"] [] (stdRow "A") "A" "0" "0" "0" "0" "0"
    rfl rfl (by decide) rfl rfl rfl rfl rfl
    (fun r' hr' => absurd hr' (List.not_mem_nil r')) rfl
  exact ⟨rfl, h.1, h.2.1⟩

/-- C3: if some bar's endpoints are at squared distance below `(1e-6)²`
(i.e. distance below `1e-6`, stated through the square-root oracle's
defining equations), the computation aborts with the degenerate-bar
dialog naming the first such bar, before any solve is attempted, and no
success outcome — bar forces, reactions or verification rows — is
produced, whatever the solver oracle would have answered. -/
theorem c3_degenerate_bar (o : NumOracle) (co : String → Except String PyCode)
    (nr : List NodeRow) (br : List BarRow) (nodes : NodeMap) (bars : List Bar)
    (i : ℕ) (b : Bar) (q : ℚ)
    (hin : get_input_data co nr br = some (nodes, bars))
    (hb : bars[i]? = some b)
    (hq : barLenSq nodes b = some q)
    (hqlt : q < 1 / 1000000000000)
    (hbef : ∀ k bk qk, k < i → bars[k]? = some bk →
      barLenSq nodes bk = some qk → ¬ qk < 1 / 1000000000000)
    (hsq : ∀ bk qk, bk ∈ bars → barLenSq nodes bk = some qk →
      o.sqrtQ qk * o.sqrtQ qk = qk ∧ 0 ≤ o.sqrtQ qk) :
    calculate o co nr br =
      .geomError ("Thanh " ++ b.id ++ " có chiều dài ~ 0!") ∧
    ∀ S R dbg, calculate o co nr br ≠ .success S R dbg := by
  have hresolve := get_input_data_resolve hin
  have hmem : b ∈ bars := mem_of_getElem?' hb
  have herr : (calcAssembly o nodes bars).err =
      some ("Thanh " ++ b.id ++ " có chiều dài ~ 0!") := by
    unfold calcAssembly
    apply assembleBarsT_err_at o nodes (sortKeys (nodes.map Prod.fst)) bars i b q
      0 ⟨zeroMat, [], none⟩ rfl
    · intro k bk _ hbk
      exact hresolve bk (mem_of_getElem?' hbk)
    · intro k bk qk hk hbk hqk
      obtain ⟨h1, h2⟩ := hsq bk qk (mem_of_getElem?' hbk) hqk
      rw [sqrt_lt_eps_iff _ qk h1 h2]
      exact hbef k bk qk hk hbk hqk
    · exact hb
    · exact hq
    · obtain ⟨h1, h2⟩ := hsq b q hmem hq
      rw [sqrt_lt_eps_iff _ q h1 h2]
      exact hqlt
  have hbne : ¬ bars = [] := by
    intro hempty
    rw [hempty] at hb
    simp at hb
  have hmain : calculate o co nr br =
      .geomError ("Thanh " ++ b.id ++ " có chiều dài ~ 0!") := by
    simp only [calculate, hin]
    rw [if_neg hbne, herr]
  refine ⟨hmain, fun S R dbg hcontra => ?_⟩
  rw [hmain] at hcontra
  exact CalcOutcome.noConfusion hcontra

/-- C1: for bar `j` from `u` to `v`, writing `L` for the oracle's square
root of `dx² + dy²` — pinned to the true Euclidean distance by the
hypotheses `L·L = dx² + dy²`, `0 ≤ L` — the assembled matrix holds
`+c = dx/L` in row `2·idx(u)` and `+s = dy/L` in row `2·idx(u)+1` of
column `j`, `-c` in row `2·idx(v)` and `-s` in row `2·idx(v)+1`, and zero
in every other row of column `j`, where `idx` is the sorted-key node
index. -/
theorem c1_bar_columns (o : NumOracle) (nodes : NodeMap) (bars : List Bar)
    (j : ℕ) (b : Bar) (p1 p2 : NodeData)
    (hb : bars[j]? = some b) (hne : b.u ≠ b.v)
    (hp1 : dictGet nodes b.u = some p1) (hp2 : dictGet nodes b.v = some p2)
    (hok : (calcAssembly o nodes bars).err = none)
    (hL2 : o.sqrtQ ((p2.x - p1.x) ^ 2 + (p2.y - p1.y) ^ 2) *
        o.sqrtQ ((p2.x - p1.x) ^ 2 + (p2.y - p1.y) ^ 2) =
        (p2.x - p1.x) ^ 2 + (p2.y - p1.y) ^ 2)
    (hL0 : 0 ≤ o.sqrtQ ((p2.x - p1.x) ^ 2 + (p2.y - p1.y) ^ 2)) :
    fullMatrix o nodes bars
        (2 * map_idx (sortKeys (nodes.map Prod.fst)) b.u) j =
      (p2.x - p1.x) / o.sqrtQ ((p2.x - p1.x) ^ 2 + (p2.y - p1.y) ^ 2) ∧
    fullMatrix o nodes bars
        (2 * map_idx (sortKeys (nodes.map Prod.fst)) b.u + 1) j =
      (p2.y - p1.y) / o.sqrtQ ((p2.x - p1.x) ^ 2 + (p2.y - p1.y) ^ 2) ∧
    fullMatrix o nodes bars
        (2 * map_idx (sortKeys (nodes.map Prod.fst)) b.v) j =
      -((p2.x - p1.x) / o.sqrtQ ((p2.x - p1.x) ^ 2 + (p2.y - p1.y) ^ 2)) ∧
    fullMatrix o nodes bars
        (2 * map_idx (sortKeys (nodes.map Prod.fst)) b.v + 1) j =
      -((p2.y - p1.y) / o.sqrtQ ((p2.x - p1.x) ^ 2 + (p2.y - p1.y) ^ 2)) ∧
    ∀ r : ℕ, r ≠ 2 * map_idx (sortKeys (nodes.map Prod.fst)) b.u →
      r ≠ 2 * map_idx (sortKeys (nodes.map Prod.fst)) b.u + 1 →
      r ≠ 2 * map_idx (sortKeys (nodes.map Prod.fst)) b.v →
      r ≠ 2 * map_idx (sortKeys (nodes.map Prod.fst)) b.v + 1 →
      fullMatrix o nodes bars r j = 0 := by
  have hjlt : j < bars.length := lt_length_of_getElem?' hb
  have humem : b.u ∈ sortKeys (nodes.map Prod.fst) := by
    rw [mem_sortKeys]
    exact dictGet_isSome_iff.mp (by rw [hp1]; rfl)
  have hvmem : b.v ∈ sortKeys (nodes.map Prod.fst) := by
    rw [mem_sortKeys]
    exact dictGet_isSome_iff.mp (by rw [hp2]; rfl)
  have hidx_ne : map_idx (sortKeys (nodes.map Prod.fst)) b.u ≠
      map_idx (sortKeys (nodes.map Prod.fst)) b.v := by
    intro heq
    exact hne (idxFrom_inj humem hvmem heq)
  have hcol : ∀ r, fullMatrix o nodes bars r j =
      (calcAssembly o nodes bars).mat r j := by
    intro r
    unfold fullMatrix
    exact assembleReactions_col_lt o (sortKeys (nodes.map Prod.fst)) bars.length
      (reaction_map nodes (sortKeys (nodes.map Prod.fst))) 0
      (calcAssembly o nodes bars).mat (calcAssembly o nodes bars).dbg r j
      (by omega)
  have hentry := assembleBarsT_entry o nodes (sortKeys (nodes.map Prod.fst))
    bars j b 0 ⟨zeroMat, [], none⟩ p1 p2 rfl (by exact hok) hb hp1 hp2
  simp only [Nat.zero_add] at hentry
  have hmat : ∀ r, (calcAssembly o nodes bars).mat r j =
      (assembleBarsT o nodes (sortKeys (nodes.map Prod.fst)) bars 0
        ⟨zeroMat, [], none⟩).mat r j := fun r => rfl
  refine ⟨?_, ?_, ?_, ?_, ?_⟩
  · rw [hcol, hmat, hentry]
    rw [if_neg (by omega), if_neg (by omega), if_neg (by omega), if_pos rfl]
  · rw [hcol, hmat, hentry]
    rw [if_neg (by omega), if_neg (by omega), if_pos rfl]
  · rw [hcol, hmat, hentry]
    rw [if_neg (by omega), if_pos rfl]
  · rw [hcol, hmat, hentry]
    rw [if_pos rfl]
  · intro r h1 h2 h3 h4
    rw [hcol, hmat, hentry]
    rw [if_neg h4, if_neg h3, if_neg h2, if_neg h1]
    rfl

/-- The 3–4–5 witness assembly runs to completion. -/
theorem calcAssembly_W_ok : (calcAssembly oW nodesW barsW).err = none := by
  have hgA : dictGet nodesW "A" = some ⟨0, 0, 0, 0, "-", 0⟩ := rfl
  have hgB : dictGet nodesW "B" = some ⟨3, 4, 0, 0, "-", 0⟩ := rfl
  have h5 : ¬ (oW.sqrtQ (((3 : ℚ) - 0) ^ 2 + ((4 : ℚ) - 0) ^ 2) < 1 / 1000000) := by
    norm_num [oW]
  simp only [calcAssembly, barsW, assembleBarsT, hgA, hgB]
  rw [if_neg h5]

/-- Witness for C1 on the 3–4–5 bar: direction cosines `3/5` and `4/5`. -/
theorem c1_witness :
    barsW[0]? = some ⟨"1", "A", "B"⟩ ∧
    ("A" : String) ≠ "B" ∧
    dictGet nodesW "A" = some ⟨0, 0, 0, 0, "-", 0⟩ ∧
    dictGet nodesW "B" = some ⟨3, 4, 0, 0, "-", 0⟩ ∧
    (calcAssembly oW nodesW barsW).err = none ∧
    oW.sqrtQ (((3 : ℚ) - 0) ^ 2 + ((4 : ℚ) - 0) ^ 2) *
      oW.sqrtQ (((3 : ℚ) - 0) ^ 2 + ((4 : ℚ) - 0) ^ 2) =
      ((3 : ℚ) - 0) ^ 2 + ((4 : ℚ) - 0) ^ 2 ∧
    fullMatrix oW nodesW barsW
        (2 * map_idx (sortKeys (nodesW.map Prod.fst)) "A") 0 =
      ((3 : ℚ) - 0) / oW.sqrtQ (((3 : ℚ) - 0) ^ 2 + ((4 : ℚ) - 0) ^ 2) ∧
    fullMatrix oW nodesW barsW
        (2 * map_idx (sortKeys (nodesW.map Prod.fst)) "A" + 1) 0 =
      ((4 : ℚ) - 0) / oW.sqrtQ (((3 : ℚ) - 0) ^ 2 + ((4 : ℚ) - 0) ^ 2) ∧
    fullMatrix oW nodesW barsW
        (2 * map_idx (sortKeys (nodesW.map Prod.fst)) "B") 0 =
      -(((3 : ℚ) - 0) / oW.sqrtQ (((3 : ℚ) - 0) ^ 2 + ((4 : ℚ) - 0) ^ 2)) ∧
    fullMatrix oW nodesW barsW
        (2 * map_idx (sortKeys (nodesW.map Prod.fst)) "B" + 1) 0 =
      -(((4 : ℚ) - 0) / oW.sqrtQ (((3 : ℚ) - 0) ^ 2 + ((4 : ℚ) - 0) ^ 2)) ∧
    fullMatrix oW nodesW barsW 5 0 = 0 := by
  have hL2 : oW.sqrtQ (((3 : ℚ) - 0) ^ 2 + ((4 : ℚ) - 0) ^ 2) *
      oW.sqrtQ (((3 : ℚ) - 0) ^ 2 + ((4 : ℚ) - 0) ^ 2) =
      ((3 : ℚ) - 0) ^ 2 + ((4 : ℚ) - 0) ^ 2 := by
    norm_num [oW]
  have hL0 : (0 : ℚ) ≤ oW.sqrtQ (((3 : ℚ) - 0) ^ 2 + ((4 : ℚ) - 0) ^ 2) := by
    norm_num [oW]
  have h := c1_bar_columns oW nodesW barsW 0 ⟨"1", "A", "B"⟩
    ⟨0, 0, 0, 0, "-", 0⟩ ⟨3, 4, 0, 0, "-", 0⟩ rfl (by decide) rfl rfl
    calcAssembly_W_ok hL2 hL0
  exact ⟨rfl, by decide, rfl, rfl, calcAssembly_W_ok, hL2, h.1, h.2.1, h.2.2.1,
    h.2.2.2.1, h.2.2.2.2 5 (by decide) (by decide) (by decide) (by decide)⟩

/-- Witness for C3: a bar of length zero aborts with the dialog naming it. -/
theorem c3_witness :
    get_input_data co0 [stdRow "A", stdRow "B"]
        [⟨some "1", some "A", some "B"⟩] =
      some ([("A", defaultNode), ("B", defaultNode)], [⟨"1", "A", "B"⟩]) ∧
    barLenSq [("A", defaultNode), ("B", defaultNode)] ⟨"1", "A", "B"⟩ =
      some (((0 : ℚ) - 0) ^ 2 + ((0 : ℚ) - 0) ^ 2) ∧
    ((0 : ℚ) - 0) ^ 2 + ((0 : ℚ) - 0) ^ 2 < 1 / 1000000000000 ∧
    calculate oZ co0 [stdRow "A", stdRow "B"] [⟨some "1", some "A", some "B"⟩] =
      .geomError "Thanh 1 có chiều dài ~ 0!" := by
  have hqlt : ((0 : ℚ) - 0) ^ 2 + ((0 : ℚ) - 0) ^ 2 < 1 / 1000000000000 := by
    norm_num
  have hsq : ∀ bk qk, bk ∈ ([⟨"1", "A", "B"⟩] : List Bar) →
      barLenSq [("A", defaultNode), ("B", defaultNode)] bk = some qk →
      oZ.sqrtQ qk * oZ.sqrtQ qk = qk ∧ 0 ≤ oZ.sqrtQ qk := by
    intro bk qk hmem hqk
    rw [List.mem_singleton] at hmem
    subst hmem
    have h0 : barLenSq [("A", defaultNode), ("B", defaultNode)] ⟨"1", "A", "B"⟩ =
        some (((0 : ℚ) - 0) ^ 2 + ((0 : ℚ) - 0) ^ 2) := rfl
    rw [h0] at hqk
    injection hqk with hqk
    rw [← hqk]
    constructor
    · show (0 : ℚ) * 0 = _
      norm_num
    · show (0 : ℚ) ≤ 0
      norm_num
  have h := c3_degenerate_bar oZ co0 [stdRow "A", stdRow "B"]
    [⟨some "1", some "A", some "B"⟩] [("A", defaultNode), ("B", defaultNode)]
    [⟨"1", "A", "B"⟩] 0 ⟨"1", "A", "B"⟩
    (((0 : ℚ) - 0) ^ 2 + ((0 : ℚ) - 0) ^ 2) rfl rfl rfl hqlt
    (fun k bk qk hk => absurd hk (Nat.not_lt_zero k)) hsq
  exact ⟨rfl, rfl, hqlt, h.1⟩
